import Mathlib

/-!
Verification of the FuckAD rule-merging utility (fuck_ad_rule.py).

The development shallowly embeds the pure logic of the program:
the line classifier `is_comment_or_empty`, the line normalizer
`normalize_rule_line`, the merge-deduplicate-sort engine
`merge_and_deduplicate_rules`, the decode step of the fetcher, and the
content computation of `write_rules_to_file`.

Modelling conventions:
- Python strings are Lean `String`; `str.strip()` is `pyStrip`, stripping
  the ASCII whitespace characters; `str.startswith` is `pyStartsWith`;
  `str.lower()` is `pyLower` (ASCII case folding).
- Dynamically typed arguments are embedded with small sum types: `PyVal`
  is a list entry (a string or some non-string value), `PySrc` is an
  element of the outer argument (a list of entries or a non-list value),
  `PyTop` is the outer argument itself.
- `list.sort()` on strings sorts in ascending code-point lexicographic
  order; it is embedded as `List.insertionSort` over `pyLeRel`, the
  code-point lexicographic order on `String` (extensionally the same
  ordering; stability is unobservable because equal strings are
  identical).
- Raising `ValueError` / `RuntimeError` is embedded as `Except.error`
  carrying the message.
- Response bytes are `List Nat`; the three decoders of the fetch loop are
  embedded byte-exactly (`utf8Decode` is a strict UTF-8 decoder,
  `utf8SigDecode` strips a BOM first, `latin1Decode` is total).
-/

/-- A Python value appearing as an entry of a per-source line list: either
a string or some non-string value (None, numbers, nested lists, ...).
Non-string entries are only ever skipped by the code, so they need no
further structure. -/
inductive PyVal : Type
  | str (s : String)
  | nonStr
deriving DecidableEq

/-- An element of the outer argument of `merge_and_deduplicate_rules`:
either a list of line entries or some non-list value. -/
inductive PySrc : Type
  | list (lines : List PyVal)
  | nonList
deriving DecidableEq

/-- The outer argument of `merge_and_deduplicate_rules` itself: either a
list of sources or some non-list value. -/
inductive PyTop : Type
  | list (sources : List PySrc)
  | nonList
deriving DecidableEq

/-- Whitespace characters stripped by Python `str.strip()` (ASCII range). -/
def isPySpace (c : Char) : Bool :=
  c = ' ' || c = '\t' || c = '\n' || c = '\r' || c = '\x0b' || c = '\x0c'

/-- Strip leading and trailing whitespace from a character list. -/
def pyStripList (cs : List Char) : List Char :=
  ((cs.dropWhile isPySpace).reverse.dropWhile isPySpace).reverse

/-- Embedding of Python `str.strip()`. -/
def pyStrip (s : String) : String :=
  ⟨pyStripList s.data⟩

/-- Embedding of Python `str.startswith(p)`. -/
def pyStartsWith (s p : String) : Bool :=
  p.data.isPrefixOf s.data

/-- Embedding of Python `str.lower()` (ASCII case folding). -/
def pyLower (s : String) : String :=
  ⟨s.data.map Char.toLower⟩

/-- Embedding of `is_comment_or_empty` (fuck_ad_rule.py lines 68-79).
The argument is an `Option String` so that the `line is None` guard is
representable. -/
def is_comment_or_empty : Option String → Bool
  | none => true
  | some l =>
    let stripped := pyStrip l
    if stripped = "" then true
    else if pyStartsWith stripped "#" || pyStartsWith stripped ";" ||
        pyStartsWith stripped "!" then true
    else
      let lower := pyLower stripped
      if pyStartsWith lower "[adblock" || pyStartsWith lower "[version" ||
          pyStartsWith lower "[filter" then true
      else false

/-- Embedding of `normalize_rule_line` (fuck_ad_rule.py lines 83-87). -/
def normalize_rule_line : Option String → String
  | none => ""
  | some l => pyStrip l

/-- Strict code-point lexicographic comparison of character lists,
embedding Python string `<`. -/
def pyListLt : List Char → List Char → Bool
  | _, [] => false
  | [], _ :: _ => true
  | a :: as, b :: bs => if a = b then pyListLt as bs else decide (a < b)

/-- Embedding of Python string `<=` (negation of the swapped strict
comparison). -/
def pyStrLe (a b : String) : Bool :=
  !(pyListLt b.data a.data)

/-- The ordering relation used by the embedded `list.sort()`. -/
def pyLeRel (a b : String) : Prop := pyStrLe a b = true

instance : DecidableRel pyLeRel := fun a b =>
  inferInstanceAs (Decidable (pyStrLe a b = true))

/-- One step of the inner loop of `merge_and_deduplicate_rules`
(fuck_ad_rule.py lines 101-112): the state is the pair of the seen set
(modelled as the list of seen rules) and the accumulated output list. -/
def processLine (st : List String × List String) (v : PyVal) :
    List String × List String :=
  match v with
  | .nonStr => st
  | .str raw_line =>
    if is_comment_or_empty (some raw_line) then st
    else
      let rule := normalize_rule_line (some raw_line)
      if rule = "" then st
      else if rule ∈ st.1 then st
      else (rule :: st.1, st.2 ++ [rule])

/-- One step of the outer loop of `merge_and_deduplicate_rules`
(fuck_ad_rule.py lines 98-112): a non-list source element is skipped. -/
def processSource (st : List String × List String) (src : PySrc) :
    List String × List String :=
  match src with
  | .nonList => st
  | .list lines => lines.foldl processLine st

/-- The accumulated (unsorted, first-seen order) rule list produced by the
two nested loops of `merge_and_deduplicate_rules`. -/
def mergeCore (sources : List PySrc) : List String :=
  (sources.foldl processSource ([], [])).2

/-- Embedding of `merge_and_deduplicate_rules` (fuck_ad_rule.py lines
91-115). The guard on line 92 rejects a non-list argument and the empty
list; otherwise the nested loops accumulate rules and the result is
sorted ascending. -/
def merge_and_deduplicate_rules (multi_source_lines : PyTop) :
    Except String (List String) :=
  match multi_source_lines with
  | .nonList => .error "Input rule list must be a non-empty list of line lists"
  | .list [] => .error "Input rule list must be a non-empty list of line lists"
  | .list sources => .ok (List.insertionSort pyLeRel (mergeCore sources))

/-- The entry `v` is a string line that the classifier retains and whose
trimmed form is `r`. -/
def lineYields (v : PyVal) (r : String) : Prop :=
  ∃ l, v = PyVal.str l ∧ is_comment_or_empty (some l) = false ∧
    normalize_rule_line (some l) = r

/-- Some line of the source `src` yields the rule `r`. -/
def srcYields (src : PySrc) (r : String) : Prop :=
  ∃ vs, src = PySrc.list vs ∧ ∃ v ∈ vs, lineYields v r

/-- Two sources are inner permutations of each other: same shape, and for
list sources the lines are a permutation. -/
def srcPerm (s t : PySrc) : Prop :=
  match s, t with
  | .nonList, .nonList => True
  | .list vs, .list ws => vs.Perm ws
  | _, _ => False

/-- Test used to drop the non-list elements of the outer collection. -/
def isListSrc : PySrc → Bool
  | .list _ => true
  | .nonList => false

/-- The three text encodings tried by the fetch decode loop
(fuck_ad_rule.py line 52), in source order. -/
inductive Encoding : Type
  | utf8
  | utf8sig
  | latin1
deriving DecidableEq

/-- Lower bound of the first continuation byte admitted after the lead
byte `b` (strict UTF-8). -/
def utf8ContLo (b : Nat) : Nat :=
  if b = 0xE0 then 0xA0 else if b = 0xF0 then 0x90 else 0x80

/-- Upper bound of the first continuation byte admitted after the lead
byte `b` (strict UTF-8; excludes surrogates and values above U+10FFFF). -/
def utf8ContHi (b : Nat) : Nat :=
  if b = 0xED then 0x9F else if b = 0xF4 then 0x8F else 0xBF

/-- A plain UTF-8 continuation byte. -/
def isCont (c : Nat) : Bool :=
  0x80 ≤ c && c ≤ 0xBF

/-- Strict UTF-8 decoder on byte lists, returning the code-point list, as
Python `bytes.decode("utf-8")`: rejects overlong forms, surrogates,
values above U+10FFFF and truncated sequences. -/
def utf8Decode : List Nat → Option (List Nat)
  | [] => some []
  | b :: rest =>
    if b < 0x80 then (utf8Decode rest).map (fun t => b :: t)
    else if b < 0xC2 then none
    else if b ≤ 0xDF then
      match rest with
      | c :: rest2 =>
        if isCont c then
          (utf8Decode rest2).map (fun t => ((b - 0xC0) * 64 + (c - 0x80)) :: t)
        else none
      | [] => none
    else if b ≤ 0xEF then
      match rest with
      | c :: d :: rest3 =>
        if utf8ContLo b ≤ c && c ≤ utf8ContHi b && isCont d then
          (utf8Decode rest3).map
            (fun t => ((b - 0xE0) * 4096 + (c - 0x80) * 64 + (d - 0x80)) :: t)
        else none
      | _ => none
    else if b ≤ 0xF4 then
      match rest with
      | c :: d :: e :: rest4 =>
        if utf8ContLo b ≤ c && c ≤ utf8ContHi b && isCont d && isCont e then
          (utf8Decode rest4).map
            (fun t => ((b - 0xF0) * 262144 + (c - 0x80) * 4096 +
              (d - 0x80) * 64 + (e - 0x80)) :: t)
        else none
      | _ => none
    else none

/-- Python `bytes.decode("utf-8-sig")`: strip one UTF-8 BOM when present,
then decode as UTF-8. -/
def utf8SigDecode : List Nat → Option (List Nat)
  | 0xEF :: 0xBB :: 0xBF :: rest => utf8Decode rest
  | bs => utf8Decode bs

/-- Python `bytes.decode("latin-1")`: total, byte k becomes code point k. -/
def latin1Decode (bs : List Nat) : Option (List Nat) :=
  some bs

/-- Dispatch a decode attempt for one encoding. -/
def pyDecode : Encoding → List Nat → Option (List Nat)
  | .utf8, bs => utf8Decode bs
  | .utf8sig, bs => utf8SigDecode bs
  | .latin1, bs => latin1Decode bs

/-- The encoding tuple of fuck_ad_rule.py line 52, in order. -/
def ENCODINGS : List Encoding :=
  [.utf8, .utf8sig, .latin1]

/-- Embedding of the decode loop of `fetch_lines_from_url`
(fuck_ad_rule.py lines 51-59): `text` starts empty; a successful decode
stores its text and breaks when the text is non-empty; a decode error
resets `text` to empty and continues. -/
def tryEncodings : List Encoding → List Nat → List Nat → List Nat
  | [], _, text => text
  | e :: es, raw, _ =>
    match pyDecode e raw with
    | some t => if t ≠ [] then t else tryEncodings es raw t
    | none => tryEncodings es raw []

/-- Embedding of the decode step of `fetch_lines_from_url`
(fuck_ad_rule.py lines 51-61), viewed as a function of the response body
bytes: run the loop, then fail when the resulting text is empty. The
value of `text` before the loop is the empty string. -/
def decode_response (raw_data : List Nat) : Except String (List Nat) :=
  let text := tryEncodings ENCODINGS raw_data []
  if text = [] then
    .error "Failed to decode response with common encodings"
  else .ok text

/-- Specification-side decode, following the words of the spec: use the
first encoding, in priority order, that yields a non-empty decoded
string. -/
def specFirstNonEmptyDecode (raw_data : List Nat) : Option (List Nat) :=
  ENCODINGS.findSome? fun e =>
    match pyDecode e raw_data with
    | some t => if t = [] then none else some t
    | none => none

/-- Embedding of `write_rules_to_file` (fuck_ad_rule.py lines 119-142),
viewed as the content it writes. The output path is a `PyVal` so that the
non-string guard is representable; the rules argument is an
`Option (List String)` so that the `rules is None` guard is
representable; the formatted UTC timestamp produced by `datetime.now` is
an input. The result is the list of lines of the file (each written with
a trailing newline): the four header lines, then one rule per line in
the given order. -/
def write_rules_to_file (rules : Option (List String)) (output_path : PyVal)
    (updated_at : String) : Except String (List String) :=
  match output_path with
  | .nonStr => .error "Output path must be a non-empty string"
  | .str p =>
    if p = "" then .error "Output path must be a non-empty string"
    else
      match rules with
      | none => .error "Rules list must not be None"
      | some rs =>
        .ok (["# Updated time: " ++ updated_at,
              "# Total rules: " ++ toString rs.length,
              "# Thanks: adrules.top and whatshub.top",
              ""] ++ rs)

/-! ### The embedded string order agrees with the lexicographic order -/

/-- The executable strict comparison coincides with lexicographic `Lex`. -/
theorem pyListLt_iff (x y : List Char) :
    pyListLt x y = true ↔ List.Lex (· < ·) x y := by
  induction x generalizing y with
  | nil =>
    cases y with
    | nil =>
      simp only [pyListLt, Bool.false_eq_true, false_iff]
      exact List.Lex.not_nil_right _ _
    | cons b bs =>
      simp only [pyListLt, true_iff]
      exact List.Lex.nil
  | cons a as ih =>
    cases y with
    | nil =>
      simp only [pyListLt, Bool.false_eq_true, false_iff]
      exact List.Lex.not_nil_right _ _
    | cons b bs =>
      by_cases hab : a = b
      · subst hab
        simpa only [pyListLt, if_pos rfl, List.Lex.cons_iff] using ih bs
      · simp only [pyListLt, if_neg hab, decide_eq_true_eq]
        constructor
        · exact fun h => List.Lex.rel h
        · intro h
          cases h with
          | cons h => exact absurd rfl hab
          | rel h => exact h

/-- The executable strict comparison coincides with the strict order on
`String`. -/
theorem pyListLt_iff_lt (a b : String) :
    pyListLt a.data b.data = true ↔ a < b := by
  rw [pyListLt_iff, String.lt_iff_toList_lt]
  exact Iff.rfl

/-- The executable comparison used by the embedded sort coincides with the
lexicographic order `≤` on `String`. -/
theorem pyStrLe_iff (a b : String) : pyStrLe a b = true ↔ a ≤ b := by
  unfold pyStrLe
  rw [Bool.not_eq_true', ← Bool.not_eq_true, pyListLt_iff_lt b a]
  exact not_lt

instance : IsTrans String pyLeRel :=
  ⟨fun a b c hab hbc =>
    (pyStrLe_iff a c).mpr (le_trans ((pyStrLe_iff a b).mp hab) ((pyStrLe_iff b c).mp hbc))⟩

instance : IsAntisymm String pyLeRel :=
  ⟨fun a b hab hba => le_antisymm ((pyStrLe_iff a b).mp hab) ((pyStrLe_iff b a).mp hba)⟩

instance : IsTotal String pyLeRel :=
  ⟨fun a b => (le_total a b).imp (pyStrLe_iff a b).mpr (pyStrLe_iff b a).mpr⟩

/-! ### Stripping is idempotent -/

/-- Unfold `pyStripList` to Mathlib vocabulary. -/
theorem pyStripList_eq_rdrop (cs : List Char) :
    pyStripList cs = List.rdropWhile isPySpace (cs.dropWhile isPySpace) := rfl

/-- A stripped character list has no leading whitespace left. -/
theorem dropWhile_pyStripList (cs : List Char) :
    (pyStripList cs).dropWhile isPySpace = pyStripList cs := by
  rw [pyStripList_eq_rdrop, List.dropWhile_eq_self_iff]
  intro hl
  have hpre : List.rdropWhile isPySpace (cs.dropWhile isPySpace) <+:
      cs.dropWhile isPySpace := List.rdropWhile_prefix _ _
  have hl' : 0 < (cs.dropWhile isPySpace).length :=
    lt_of_lt_of_le hl hpre.length_le
  have hget : (List.rdropWhile isPySpace (cs.dropWhile isPySpace)).get ⟨0, hl⟩ =
      (cs.dropWhile isPySpace).get ⟨0, hl'⟩ := by
    rw [List.get_eq_getElem, List.get_eq_getElem]
    exact hpre.getElem hl
  rw [hget]
  exact List.dropWhile_get_zero_not isPySpace cs hl'

/-- Stripping a character list twice is the same as stripping it once. -/
theorem pyStripList_idem (cs : List Char) :
    pyStripList (pyStripList cs) = pyStripList cs := by
  conv_lhs => rw [pyStripList_eq_rdrop (pyStripList cs)]
  rw [dropWhile_pyStripList, pyStripList_eq_rdrop, List.rdropWhile_idempotent]

/-- Stripping a string twice is the same as stripping it once. -/
theorem pyStrip_idem (s : String) : pyStrip (pyStrip s) = pyStrip s := by
  show String.mk (pyStripList (pyStripList s.data)) = String.mk (pyStripList s.data)
  rw [pyStripList_idem]

/-! ### Classifier and normalizer facts -/

/-- A line the classifier retains has a non-empty trimmed form (claim C9
core fact): the body of the classifier returns `true` whenever the
stripped line is empty. -/
theorem retained_ne_empty {l : String} (h : is_comment_or_empty (some l) = false) :
    normalize_rule_line (some l) ≠ "" := by
  intro he
  have he' : pyStrip l = "" := he
  simp [is_comment_or_empty, he'] at h

/-- The classifier only looks at the stripped line, so it gives the same
verdict on a line and on its trimmed form. -/
theorem is_comment_or_empty_pyStrip (l : String) :
    is_comment_or_empty (some (pyStrip l)) = is_comment_or_empty (some l) := by
  simp only [is_comment_or_empty, pyStrip_idem]

/-! ### What the merge loops accumulate -/

theorem lineYields_str {s r : String} :
    lineYields (PyVal.str s) r ↔
      is_comment_or_empty (some s) = false ∧ normalize_rule_line (some s) = r := by
  simp [lineYields]

theorem not_lineYields_nonStr (r : String) : ¬ lineYields PyVal.nonStr r := by
  simp [lineYields]

theorem srcYields_list {vs : List PyVal} {r : String} :
    srcYields (PySrc.list vs) r ↔ ∃ v ∈ vs, lineYields v r := by
  simp [srcYields]

theorem not_srcYields_nonList (r : String) : ¬ srcYields PySrc.nonList r := by
  simp [srcYields]

theorem processLine_nonStr (st : List String × List String) :
    processLine st PyVal.nonStr = st := rfl

theorem processLine_str_comment {s : String} (st : List String × List String)
    (hc : is_comment_or_empty (some s) = true) :
    processLine st (PyVal.str s) = st := by
  simp [processLine, hc]

theorem processLine_str_seen {s : String} (st : List String × List String)
    (hc : is_comment_or_empty (some s) = false)
    (hm : normalize_rule_line (some s) ∈ st.1) :
    processLine st (PyVal.str s) = st := by
  simp [processLine, hc, retained_ne_empty hc, hm]

theorem processLine_str_new {s : String} (st : List String × List String)
    (hc : is_comment_or_empty (some s) = false)
    (hm : normalize_rule_line (some s) ∉ st.1) :
    processLine st (PyVal.str s) =
      (normalize_rule_line (some s) :: st.1, st.2 ++ [normalize_rule_line (some s)]) := by
  simp [processLine, hc, retained_ne_empty hc, hm]

/-- Invariant of the inner loop: the seen list mirrors the accumulator,
the accumulator stays duplicate-free, and its members are exactly the
old members plus the rules yielded by the processed entries. -/
theorem foldl_processLine_spec (vs : List PyVal) :
    ∀ seen acc, seen = acc.reverse → acc.Nodup →
      (vs.foldl processLine (seen, acc)).1 = (vs.foldl processLine (seen, acc)).2.reverse ∧
      (vs.foldl processLine (seen, acc)).2.Nodup ∧
      (∀ r, r ∈ (vs.foldl processLine (seen, acc)).2 ↔
        r ∈ acc ∨ ∃ v ∈ vs, lineYields v r) := by
  induction vs with
  | nil =>
    intro seen acc hseen hnd
    simp [hseen, hnd]
  | cons v vs ih =>
    intro seen acc hseen hnd
    rw [List.foldl_cons]
    cases v with
    | nonStr =>
      rw [processLine_nonStr]
      obtain ⟨h1, h2, h3⟩ := ih seen acc hseen hnd
      refine ⟨h1, h2, fun r => ?_⟩
      rw [h3 r, List.exists_mem_cons_iff]
      simp [not_lineYields_nonStr]
    | str s =>
      cases hc : is_comment_or_empty (some s) with
      | true =>
        rw [processLine_str_comment _ hc]
        obtain ⟨h1, h2, h3⟩ := ih seen acc hseen hnd
        refine ⟨h1, h2, fun r => ?_⟩
        rw [h3 r, List.exists_mem_cons_iff, lineYields_str]
        simp [hc]
      | false =>
        by_cases hm : normalize_rule_line (some s) ∈ seen
        · rw [processLine_str_seen _ hc hm]
          obtain ⟨h1, h2, h3⟩ := ih seen acc hseen hnd
          refine ⟨h1, h2, fun r => ?_⟩
          rw [h3 r, List.exists_mem_cons_iff, lineYields_str]
          have hmacc : normalize_rule_line (some s) ∈ acc := by
            rw [hseen, List.mem_reverse] at hm
            exact hm
          constructor
          · exact fun h => h.imp_right Or.inr
          · rintro (h | ⟨-, rfl⟩ | h)
            · exact Or.inl h
            · exact Or.inl hmacc
            · exact Or.inr h
        · rw [processLine_str_new _ hc hm]
          have hrev : normalize_rule_line (some s) :: seen =
              (acc ++ [normalize_rule_line (some s)]).reverse := by
            rw [List.reverse_append, hseen]
            rfl
          have hmacc : normalize_rule_line (some s) ∉ acc := by
            intro h
            exact hm (by rw [hseen, List.mem_reverse]; exact h)
          have hnd' : (acc ++ [normalize_rule_line (some s)]).Nodup := by
            simp [List.nodup_append, hnd, hmacc]
          obtain ⟨h1, h2, h3⟩ := ih _ _ hrev hnd'
          refine ⟨h1, h2, fun r => ?_⟩
          rw [h3 r, List.exists_mem_cons_iff, lineYields_str]
          simp only [List.mem_append, List.mem_singleton, hc, true_and]
          constructor
          · rintro ((h | rfl) | h)
            · exact Or.inl h
            · exact Or.inr (Or.inl rfl)
            · exact Or.inr (Or.inr h)
          · rintro (h | rfl | h)
            · exact Or.inl (Or.inl h)
            · exact Or.inl (Or.inr rfl)
            · exact Or.inr h

/-- Invariant of the outer loop, mirroring `foldl_processLine_spec` at the
source level. -/
theorem foldl_processSource_spec (srcs : List PySrc) :
    ∀ seen acc, seen = acc.reverse → acc.Nodup →
      (srcs.foldl processSource (seen, acc)).1 =
        (srcs.foldl processSource (seen, acc)).2.reverse ∧
      (srcs.foldl processSource (seen, acc)).2.Nodup ∧
      (∀ r, r ∈ (srcs.foldl processSource (seen, acc)).2 ↔
        r ∈ acc ∨ ∃ src ∈ srcs, srcYields src r) := by
  induction srcs with
  | nil =>
    intro seen acc hseen hnd
    simp [hseen, hnd]
  | cons src srcs ih =>
    intro seen acc hseen hnd
    rw [List.foldl_cons]
    cases src with
    | nonList =>
      rw [show processSource (seen, acc) PySrc.nonList = (seen, acc) from rfl]
      obtain ⟨h1, h2, h3⟩ := ih seen acc hseen hnd
      refine ⟨h1, h2, fun r => ?_⟩
      rw [h3 r, List.exists_mem_cons_iff]
      simp [not_srcYields_nonList]
    | list vs =>
      rw [show processSource (seen, acc) (PySrc.list vs) =
        vs.foldl processLine (seen, acc) from rfl]
      obtain ⟨g1, g2, g3⟩ := foldl_processLine_spec vs seen acc hseen hnd
      rcases hst : vs.foldl processLine (seen, acc) with ⟨seen', acc'⟩
      rw [hst] at g1 g2 g3
      obtain ⟨h1, h2, h3⟩ := ih seen' acc' g1 g2
      refine ⟨h1, h2, fun r => ?_⟩
      rw [h3 r, List.exists_mem_cons_iff, srcYields_list, g3 r]
      constructor
      · rintro ((h | h) | h)
        · exact Or.inl h
        · exact Or.inr (Or.inl h)
        · exact Or.inr (Or.inr h)
      · rintro (h | h | h)
        · exact Or.inl (Or.inl h)
        · exact Or.inl (Or.inr h)
        · exact Or.inr h

/-- The accumulator of the merge loops is duplicate-free. -/
theorem mergeCore_nodup (srcs : List PySrc) : (mergeCore srcs).Nodup :=
  (foldl_processSource_spec srcs [] [] rfl List.nodup_nil).2.1

/-- Membership in the accumulator of the merge loops: exactly the rules
yielded by some retained line of some source. -/
theorem mem_mergeCore {srcs : List PySrc} {r : String} :
    r ∈ mergeCore srcs ↔ ∃ src ∈ srcs, srcYields src r := by
  have h := ((foldl_processSource_spec srcs [] [] rfl List.nodup_nil).2.2) r
  simpa using h

/-! ### Consequences for the merge engine -/

/-- A non-empty list argument always merges successfully, to the sorted
accumulator. -/
theorem merge_ok {srcs : List PySrc} (h : srcs ≠ []) :
    merge_and_deduplicate_rules (PyTop.list srcs) =
      Except.ok (List.insertionSort pyLeRel (mergeCore srcs)) := by
  cases srcs with
  | nil => exact absurd rfl h
  | cons a l => rfl

/-- Every member of the accumulator is a non-empty, retained, trimmed rule
string, and trimming it again changes nothing. -/
theorem mergeCore_mem_good {srcs : List PySrc} {r : String}
    (hr : r ∈ mergeCore srcs) :
    r ≠ "" ∧ is_comment_or_empty (some r) = false ∧
      normalize_rule_line (some r) = r := by
  obtain ⟨src, hsrc, hy⟩ := mem_mergeCore.mp hr
  obtain ⟨vs, -, v, -, l, -, hc, hnorm⟩ := hy
  subst hnorm
  refine ⟨retained_ne_empty hc, ?_, ?_⟩
  · show is_comment_or_empty (some (pyStrip l)) = false
    rw [is_comment_or_empty_pyStrip]
    exact hc
  · show pyStrip (pyStrip l) = pyStrip l
    exact pyStrip_idem l

/-- Merging the already-merged output as a single source reproduces the
accumulator unchanged and sorting fixes it. -/
theorem foldl_processLine_all_new (rs : List String) :
    ∀ seen acc, rs.Nodup →
      (∀ r ∈ rs, is_comment_or_empty (some r) = false ∧
        normalize_rule_line (some r) = r ∧ r ∉ seen) →
      (rs.map PyVal.str).foldl processLine (seen, acc) =
        (rs.reverse ++ seen, acc ++ rs) := by
  induction rs with
  | nil =>
    intro seen acc _ _
    simp
  | cons r rs ih =>
    intro seen acc hnd hall
    obtain ⟨hc, hnorm, hns⟩ := hall r (List.mem_cons_self r rs)
    rw [List.map_cons, List.foldl_cons]
    rw [processLine_str_new _ hc (by rw [hnorm]; exact hns), hnorm]
    have hall' : ∀ r' ∈ rs, is_comment_or_empty (some r') = false ∧
        normalize_rule_line (some r') = r' ∧ r' ∉ r :: seen := by
      intro r' hr'
      obtain ⟨hc', hn', hns'⟩ := hall r' (List.mem_cons_of_mem _ hr')
      refine ⟨hc', hn', ?_⟩
      intro hmem
      rcases List.mem_cons.mp hmem with rfl | hmem'
      · exact (List.nodup_cons.mp hnd).1 hr'
      · exact hns' hmem'
    rw [ih (r :: seen) (acc ++ [r]) (List.nodup_cons.mp hnd).2 hall']
    simp

/-- Merging a single well-formed source of already-canonical, sorted,
duplicate-free rules returns it unchanged. -/
theorem merge_singleton_of_good (rs : List String) (hnd : rs.Nodup)
    (hsorted : List.Sorted pyLeRel rs)
    (hgood : ∀ r ∈ rs, is_comment_or_empty (some r) = false ∧
      normalize_rule_line (some r) = r) :
    merge_and_deduplicate_rules (PyTop.list [PySrc.list (rs.map PyVal.str)]) =
      Except.ok rs := by
  rw [merge_ok (List.cons_ne_nil _ _)]
  have hcore : mergeCore [PySrc.list (rs.map PyVal.str)] = rs := by
    unfold mergeCore
    rw [List.foldl_cons, List.foldl_nil]
    rw [show processSource ([], []) (PySrc.list (rs.map PyVal.str)) =
      (rs.map PyVal.str).foldl processLine ([], []) from rfl]
    have hall : ∀ r ∈ rs, is_comment_or_empty (some r) = false ∧
        normalize_rule_line (some r) = r ∧ r ∉ ([] : List String) := by
      intro r hr
      exact ⟨(hgood r hr).1, (hgood r hr).2, List.not_mem_nil r⟩
    rw [foldl_processLine_all_new rs [] [] hnd hall]
    simp
  rw [hcore, hsorted.insertionSort_eq]

/-! ### Permutation invariance machinery -/

theorem srcYields_iff_of_srcPerm {s t : PySrc} (h : srcPerm s t) (r : String) :
    srcYields s r ↔ srcYields t r := by
  cases s with
  | nonList =>
    cases t with
    | nonList => exact Iff.rfl
    | list ws => exact False.elim h
  | list vs =>
    cases t with
    | nonList => exact False.elim h
    | list ws =>
      have hp : vs.Perm ws := h
      rw [srcYields_list, srcYields_list]
      constructor
      · rintro ⟨v, hv, hy⟩
        exact ⟨v, hp.mem_iff.mp hv, hy⟩
      · rintro ⟨v, hv, hy⟩
        exact ⟨v, hp.mem_iff.mpr hv, hy⟩

theorem exists_src_iff_forall₂ {l₁ l₂ : List PySrc}
    (h : List.Forall₂ srcPerm l₁ l₂) (r : String) :
    (∃ src ∈ l₁, srcYields src r) ↔ ∃ src ∈ l₂, srcYields src r := by
  induction h with
  | nil => exact Iff.rfl
  | cons hst hrest ih =>
    rw [List.exists_mem_cons_iff, List.exists_mem_cons_iff, ih,
      srcYields_iff_of_srcPerm hst r]

/-! ### Decode loop lemmas -/

theorem tryEncodings_eq_findSome (es : List Encoding) (raw : List Nat) :
    tryEncodings es raw [] =
      (es.findSome? fun e =>
        match pyDecode e raw with
        | some t => if t = [] then none else some t
        | none => none).getD [] := by
  induction es with
  | nil => rfl
  | cons e es ih =>
    rw [List.findSome?_cons]
    cases hd : pyDecode e raw with
    | none => simp [tryEncodings, hd, ih]
    | some t =>
      by_cases ht : t = []
      · subst ht
        simp [tryEncodings, hd, ih]
      · simp [tryEncodings, hd, ht]

theorem tryEncodings_spec (raw : List Nat) :
    tryEncodings ENCODINGS raw [] = (specFirstNonEmptyDecode raw).getD [] := by
  rw [specFirstNonEmptyDecode]
  exact tryEncodings_eq_findSome ENCODINGS raw

theorem specFirstNonEmptyDecode_ne_empty {raw t : List Nat}
    (h : specFirstNonEmptyDecode raw = some t) : t ≠ [] := by
  obtain ⟨e, -, he⟩ := List.exists_of_findSome?_eq_some h
  cases hd : pyDecode e raw with
  | none => rw [hd] at he; exact absurd he (by simp)
  | some u =>
    rw [hd] at he
    have he' : (if u = [] then none else some u) = some t := he
    by_cases hu : u = []
    · rw [if_pos hu] at he'
      exact absurd he' (by simp)
    · rw [if_neg hu] at he'
      have : u = t := by simpa using he'
      rw [← this]
      exact hu

theorem specFirstNonEmptyDecode_eq_none_iff (raw : List Nat) :
    specFirstNonEmptyDecode raw = none ↔ raw = [] := by
  constructor
  · intro h
    have hl := (List.findSome?_eq_none_iff.mp h) Encoding.latin1
      (by simp [ENCODINGS])
    simp only [pyDecode, latin1Decode] at hl
    by_cases hr : raw = []
    · exact hr
    · rw [if_neg hr] at hl
      exact absurd hl (by simp)
  · intro h
    subst h
    rfl

/-! ### Classifier characterization -/

theorem is_comment_or_empty_eq (l : String) :
    is_comment_or_empty (some l) =
      (decide (pyStrip l = "") ||
       (pyStartsWith (pyStrip l) "#" || pyStartsWith (pyStrip l) ";" ||
        pyStartsWith (pyStrip l) "!") ||
       (pyStartsWith (pyLower (pyStrip l)) "[adblock" ||
        pyStartsWith (pyLower (pyStrip l)) "[version" ||
        pyStartsWith (pyLower (pyStrip l)) "[filter")) := by
  simp only [is_comment_or_empty]
  by_cases h1 : pyStrip l = "" <;>
    cases h2 : (pyStartsWith (pyStrip l) "#" || pyStartsWith (pyStrip l) ";" ||
      pyStartsWith (pyStrip l) "!") <;>
      cases h3 : (pyStartsWith (pyLower (pyStrip l)) "[adblock" ||
        pyStartsWith (pyLower (pyStrip l)) "[version" ||
        pyStartsWith (pyLower (pyStrip l)) "[filter") <;>
        simp [h1, h2, h3]

/-- Dropping the non-list sources does not change the loop state. -/
theorem foldl_processSource_filter (l : List PySrc) :
    ∀ st : List String × List String,
      l.foldl processSource st = (l.filter isListSrc).foldl processSource st := by
  induction l with
  | nil => intro st; rfl
  | cons s l ih =>
    intro st
    cases s with
    | nonList =>
      rw [List.foldl_cons, show processSource st PySrc.nonList = st from rfl]
      rw [ih st]
      simp [isListSrc]
    | list vs =>
      rw [List.foldl_cons]
      rw [show (PySrc.list vs :: l).filter isListSrc =
        PySrc.list vs :: l.filter isListSrc from by simp [isListSrc]]
      rw [List.foldl_cons]
      exact ih _

/-- Dropping the non-list sources does not change the accumulator. -/
theorem mergeCore_filter (srcs : List PySrc) :
    mergeCore srcs = mergeCore (srcs.filter isListSrc) := by
  unfold mergeCore
  rw [foldl_processSource_filter srcs ([], [])]

/-! ### The claims -/

/-- C1: for every non-empty list of per-source line lists, the list
returned by merge_and_deduplicate_rules contains only unique, non-empty,
non-comment rule strings and is sorted in ascending lexicographic order:
every element is the trimmed form of some input line that the classifier
retains, no two elements are equal, and all adjacent pairs are ordered. -/
theorem C1_merge_output_unique_sorted (srcs : List PySrc) (h : srcs ≠ []) :
    ∃ out, merge_and_deduplicate_rules (PyTop.list srcs) = Except.ok out ∧
      out.Pairwise (· ≤ ·) ∧ out.Nodup ∧
      ∀ r ∈ out, r ≠ "" ∧ is_comment_or_empty (some r) = false ∧
        ∃ src ∈ srcs, srcYields src r := by
  refine ⟨List.insertionSort pyLeRel (mergeCore srcs), merge_ok h, ?_, ?_, ?_⟩
  · exact List.Pairwise.imp (fun hab => (pyStrLe_iff _ _).mp hab)
      (List.sorted_insertionSort pyLeRel (mergeCore srcs))
  · exact (List.perm_insertionSort pyLeRel (mergeCore srcs)).nodup_iff.mpr
      (mergeCore_nodup srcs)
  · intro r hr
    have hr' : r ∈ mergeCore srcs :=
      (List.perm_insertionSort pyLeRel (mergeCore srcs)).mem_iff.mp hr
    have hg := mergeCore_mem_good hr'
    exact ⟨hg.1, hg.2.1, mem_mergeCore.mp hr'⟩

/-- Witness for C1 at a concrete two-source input. -/
theorem C1_witness :
    ∃ out, merge_and_deduplicate_rules (PyTop.list
        [PySrc.list [PyVal.str "ruleB", PyVal.str "# note"],
         PySrc.list [PyVal.str " ruleA "]]) = Except.ok out ∧
      out.Pairwise (· ≤ ·) ∧ out.Nodup ∧
      ∀ r ∈ out, r ≠ "" ∧ is_comment_or_empty (some r) = false ∧
        ∃ src ∈ [PySrc.list [PyVal.str "ruleB", PyVal.str "# note"],
          PySrc.list [PyVal.str " ruleA "]], srcYields src r :=
  C1_merge_output_unique_sorted _ (List.cons_ne_nil _ _)

/-- C2: merge_and_deduplicate_rules raises the InvalidInput ValueError if
and only if its argument is not a list or is the empty list; every
non-empty list argument returns normally. -/
theorem C2_merge_error_iff (x : PyTop) :
    (∃ e, merge_and_deduplicate_rules x = Except.error e) ↔
      x = PyTop.nonList ∨ x = PyTop.list [] := by
  cases x with
  | nonList => simp [merge_and_deduplicate_rules]
  | list srcs =>
    cases srcs with
    | nil => simp [merge_and_deduplicate_rules]
    | cons a l => simp [merge_and_deduplicate_rules]

/-- C3: merging is idempotent: wrapping the output of one run as a single
source and merging again yields the same output. -/
theorem C3_merge_idempotent (srcs : List PySrc) (h : srcs ≠ [])
    (out : List String)
    (hout : merge_and_deduplicate_rules (PyTop.list srcs) = Except.ok out) :
    merge_and_deduplicate_rules (PyTop.list [PySrc.list (out.map PyVal.str)]) =
      Except.ok out := by
  rw [merge_ok h] at hout
  have hout' : List.insertionSort pyLeRel (mergeCore srcs) = out :=
    Except.ok.inj hout
  subst hout'
  apply merge_singleton_of_good
  · exact (List.perm_insertionSort pyLeRel (mergeCore srcs)).nodup_iff.mpr
      (mergeCore_nodup srcs)
  · exact List.sorted_insertionSort pyLeRel (mergeCore srcs)
  · intro r hr
    have hr' : r ∈ mergeCore srcs :=
      (List.perm_insertionSort pyLeRel (mergeCore srcs)).mem_iff.mp hr
    exact ⟨(mergeCore_mem_good hr').2.1, (mergeCore_mem_good hr').2.2⟩

/-- Witness for C3 at a concrete input. -/
theorem C3_witness :
    merge_and_deduplicate_rules (PyTop.list
        [PySrc.list [PyVal.str "a", PyVal.str "b"]]) =
      Except.ok ["a", "b"] :=
  C3_merge_idempotent [PySrc.list [PyVal.str "b", PyVal.str "a"]]
    (List.cons_ne_nil _ _) ["a", "b"] rfl

/-- C4: the output is independent of the order of sources and of the
order of lines within each source: permuting the lines inside each
source and then permuting the outer list leaves the output unchanged. -/
theorem C4_merge_perm_invariant (srcs₁ mid srcs₂ : List PySrc)
    (h : srcs₁ ≠ []) (hf : List.Forall₂ srcPerm srcs₁ mid)
    (hp : mid.Perm srcs₂) :
    merge_and_deduplicate_rules (PyTop.list srcs₁) =
      merge_and_deduplicate_rules (PyTop.list srcs₂) := by
  have h₂ : srcs₂ ≠ [] := by
    intro he
    subst he
    have hmid : mid = [] := hp.eq_nil
    subst hmid
    exact h (List.forall₂_nil_right_iff.mp hf)
  rw [merge_ok h, merge_ok h₂]
  have hmem : ∀ r, r ∈ mergeCore srcs₁ ↔ r ∈ mergeCore srcs₂ := by
    intro r
    rw [mem_mergeCore, mem_mergeCore, exists_src_iff_forall₂ hf r]
    constructor
    · rintro ⟨src, hsrc, hy⟩
      exact ⟨src, hp.mem_iff.mp hsrc, hy⟩
    · rintro ⟨src, hsrc, hy⟩
      exact ⟨src, hp.mem_iff.mpr hsrc, hy⟩
  have hpermcore : (mergeCore srcs₁).Perm (mergeCore srcs₂) :=
    (List.perm_ext_iff_of_nodup (mergeCore_nodup srcs₁)
      (mergeCore_nodup srcs₂)).mpr hmem
  have heq : List.insertionSort pyLeRel (mergeCore srcs₁) =
      List.insertionSort pyLeRel (mergeCore srcs₂) :=
    List.eq_of_perm_of_sorted
      (((List.perm_insertionSort pyLeRel (mergeCore srcs₁)).trans
        hpermcore).trans
        (List.perm_insertionSort pyLeRel (mergeCore srcs₂)).symm)
      (List.sorted_insertionSort pyLeRel (mergeCore srcs₁))
      (List.sorted_insertionSort pyLeRel (mergeCore srcs₂))
  rw [heq]

/-- Witness for C4: a concrete inner swap followed by an outer swap. -/
theorem C4_witness :
    merge_and_deduplicate_rules (PyTop.list
        [PySrc.list [PyVal.str "b"],
         PySrc.list [PyVal.str "a", PyVal.str "# x"]]) =
      merge_and_deduplicate_rules (PyTop.list
        [PySrc.list [PyVal.str "# x", PyVal.str "a"],
         PySrc.list [PyVal.str "b"]]) :=
  C4_merge_perm_invariant _
    [PySrc.list [PyVal.str "b"], PySrc.list [PyVal.str "# x", PyVal.str "a"]]
    _ (List.cons_ne_nil _ _)
    (List.Forall₂.cons (List.Perm.refl _)
      (List.Forall₂.cons (List.Perm.swap (PyVal.str "# x") (PyVal.str "a") [])
        List.Forall₂.nil))
    (List.Perm.swap (PySrc.list [PyVal.str "# x", PyVal.str "a"])
      (PySrc.list [PyVal.str "b"]) [])

/-- C5: the classifier discards exactly the listed lines: an absent line,
a line empty after trimming, a trimmed line starting with one of the
comment markers, or a trimmed line whose lowercase form starts with one
of the metadata headers; every other line is retained. -/
theorem C5_classifier_characterization (line : Option String) :
    is_comment_or_empty line = true ↔
      line = none ∨ ∃ l, line = some l ∧
        (pyStrip l = "" ∨
         pyStartsWith (pyStrip l) "#" = true ∨
         pyStartsWith (pyStrip l) ";" = true ∨
         pyStartsWith (pyStrip l) "!" = true ∨
         pyStartsWith (pyLower (pyStrip l)) "[adblock" = true ∨
         pyStartsWith (pyLower (pyStrip l)) "[version" = true ∨
         pyStartsWith (pyLower (pyStrip l)) "[filter" = true) := by
  cases line with
  | none => simp [is_comment_or_empty]
  | some l =>
    rw [is_comment_or_empty_eq]
    simp only [Bool.or_eq_true, decide_eq_true_eq, Option.some.injEq,
      reduceCtorEq, false_or]
    constructor
    · intro h
      exact ⟨l, rfl, by tauto⟩
    · rintro ⟨l', hl', h⟩
      cases hl'
      tauto

/-- C6: the concrete two-source scenario merges to exactly
["ruleA", "ruleB", "ruleC"]. -/
theorem C6_concrete_merge :
    merge_and_deduplicate_rules (PyTop.list
        [PySrc.list [PyVal.str "# comment", PyVal.str "ruleA", PyVal.str "",
          PyVal.str "ruleB"],
         PySrc.list [PyVal.str "ruleA", PyVal.str "; note",
          PyVal.str "ruleC"]]) =
      Except.ok ["ruleA", "ruleB", "ruleC"] := rfl

/-- C7: the decode step tries UTF-8, UTF-8 with BOM, then latin-1, in that
order, returns the text of the first encoding producing a non-empty
string, and fails exactly on inputs for which no encoding yields a
non-empty string, which happens precisely for the empty body. -/
theorem C7_decode_first_success (raw : List Nat) :
    decode_response raw = (match specFirstNonEmptyDecode raw with
      | some t => Except.ok t
      | none =>
          Except.error "Failed to decode response with common encodings") ∧
    ((∃ e, decode_response raw = Except.error e) ↔ raw = []) := by
  have h1 := tryEncodings_spec raw
  have main : decode_response raw = (match specFirstNonEmptyDecode raw with
      | some t => Except.ok t
      | none =>
          Except.error "Failed to decode response with common encodings") := by
    unfold decode_response
    rw [h1]
    cases hs : specFirstNonEmptyDecode raw with
    | none => simp
    | some t =>
      have ht : t ≠ [] := specFirstNonEmptyDecode_ne_empty hs
      simp [ht]
  refine ⟨main, ⟨?_, ?_⟩⟩
  · rintro ⟨e, he⟩
    rw [main] at he
    cases hs : specFirstNonEmptyDecode raw with
    | some t => rw [hs] at he; exact absurd he (by simp)
    | none => exact (specFirstNonEmptyDecode_eq_none_iff raw).mp hs
  · intro h
    subst h
    exact ⟨"Failed to decode response with common encodings", rfl⟩

/-- C8: the writer fails exactly when the path is not a non-empty string
or the rules argument is absent, and otherwise writes the four header
lines followed by each rule on its own line in the given order. -/
theorem C8_write_rules_content (rules : Option (List String))
    (output_path : PyVal) (updated_at : String) :
    ((∃ e, write_rules_to_file rules output_path updated_at =
        Except.error e) ↔
      (output_path = PyVal.nonStr ∨ output_path = PyVal.str "" ∨
        rules = none)) ∧
    (∀ rs p, rules = some rs → output_path = PyVal.str p → p ≠ "" →
      write_rules_to_file rules output_path updated_at =
        Except.ok (["# Updated time: " ++ updated_at,
          "# Total rules: " ++ toString rs.length,
          "# Thanks: adrules.top and whatshub.top",
          ""] ++ rs)) := by
  constructor
  · cases output_path with
    | nonStr => simp [write_rules_to_file]
    | str p =>
      by_cases hp : p = ""
      · subst hp
        simp [write_rules_to_file]
      · cases rules with
        | none => simp [write_rules_to_file, hp]
        | some rs => simp [write_rules_to_file, hp]
  · rintro rs p rfl rfl hp
    simp [write_rules_to_file, hp]

/-- Witness for C8: the empty rule list yields the header-only content
with a zero total. -/
theorem C8_witness :
    write_rules_to_file (some []) (PyVal.str "FuckAD.conf")
        "2026-01-01T00:00:00Z" =
      Except.ok ["# Updated time: 2026-01-01T00:00:00Z", "# Total rules: 0",
        "# Thanks: adrules.top and whatshub.top", ""] := by
  have h := (C8_write_rules_content (some []) (PyVal.str "FuckAD.conf")
    "2026-01-01T00:00:00Z").2 [] "FuckAD.conf" rfl rfl (by decide)
  simpa using h

/-- C9: a line the classifier retains normalizes to a non-empty string,
so the empty-rule skip in the merge loop never fires for retained lines:
the loop step is fully described by the dedup check alone. -/
theorem C9_retained_normalizes_nonempty (l : String)
    (h : is_comment_or_empty (some l) = false) :
    normalize_rule_line (some l) ≠ "" ∧
    ∀ st : List String × List String, processLine st (PyVal.str l) =
      if normalize_rule_line (some l) ∈ st.1 then st
      else (normalize_rule_line (some l) :: st.1,
        st.2 ++ [normalize_rule_line (some l)]) := by
  refine ⟨retained_ne_empty h, fun st => ?_⟩
  by_cases hm : normalize_rule_line (some l) ∈ st.1
  · rw [if_pos hm, processLine_str_seen st h hm]
  · rw [if_neg hm, processLine_str_new st h hm]

/-- Witness for C9 at a concrete retained line. -/
theorem C9_witness : normalize_rule_line (some " a ") ≠ "" :=
  (C9_retained_normalizes_nonempty " a " (by decide)).1

/-- C10: non-list elements of the outer collection are silently skipped:
the result equals the merge of the input with the non-list sources
removed, and an input of only non-list sources yields the empty list. -/
theorem C10_nonlist_sources_skipped (srcs : List PySrc) (h : srcs ≠ []) :
    (srcs.filter isListSrc ≠ [] →
      merge_and_deduplicate_rules (PyTop.list srcs) =
        merge_and_deduplicate_rules (PyTop.list (srcs.filter isListSrc))) ∧
    (srcs.filter isListSrc = [] →
      merge_and_deduplicate_rules (PyTop.list srcs) = Except.ok []) := by
  constructor
  · intro hfil
    rw [merge_ok h, merge_ok hfil, mergeCore_filter]
  · intro hfil
    rw [merge_ok h, mergeCore_filter, hfil]
    rfl

/-- Witness for C10: one skipped non-list source, and an all-non-list
input. -/
theorem C10_witness :
    merge_and_deduplicate_rules (PyTop.list
        [PySrc.nonList, PySrc.list [PyVal.str "a"]]) =
      merge_and_deduplicate_rules (PyTop.list [PySrc.list [PyVal.str "a"]]) ∧
    merge_and_deduplicate_rules (PyTop.list [PySrc.nonList]) =
      Except.ok [] :=
  ⟨(C10_nonlist_sources_skipped [PySrc.nonList, PySrc.list [PyVal.str "a"]]
      (List.cons_ne_nil _ _)).1 (by decide),
   (C10_nonlist_sources_skipped [PySrc.nonList]
      (List.cons_ne_nil _ _)).2 (by decide)⟩
